import Mathlib

/-
Verification of the tournament simulation core of the football-sim backend
(`services/simulation.py`).  The simulation engine is embedded shallowly:

* teams are plain strings;
* probabilities are rationals (the Python floats never matter to the
  properties proved here: only signs, zero tests and exact count/n quotients);
* Python exceptions are modelled with `Except SimError`: an `.error` result
  means the call raised and nothing was returned or persisted;
* the external collaborators are parameters: the numpy generator
  `np.random.default_rng` is an abstract `RngOps` value (its documented
  guarantees - draws uniform in [0,1), `shuffle` permutes - enter theorems as
  hypotheses), `load_active_model` is an `Except SimError Unit`, and
  `simulate_match` (which wraps the sklearn model; its output dict always has
  the three keys `home_win`/`draw`/`away_win` thanks to the `setdefault`
  loop) is a function `Team → Team → Except SimError MatchProbs`;
* the database write at the end of `simulate_tournament` is modelled by the
  returned record: the persisted `SimulationRun` row and the response share
  the `SimResult` payload, and it exists exactly when the call succeeds.
-/

set_option autoImplicit false

namespace FootballSim

abbrev Team := String

/-- Probability triple returned by the predictive-model collaborator for one
fixture (`simulate_match`, simulation.py lines 17-53).  All three keys are
present, missing ones having been filled with 0.0. -/
structure MatchProbs where
  home_win : ℚ
  draw : ℚ
  away_win : ℚ
deriving Repr, DecidableEq

/-- One team's counters in a tally dict `{"wins": _, "finals": _, "semis": _}`. -/
structure TeamStats where
  wins : ℕ
  finals : ℕ
  semis : ℕ
deriving Repr, DecidableEq

/-- Python exceptions that the simulation code can raise.  `invalidInput` is
the `ValueError` of the validation block, `zeroDivisionError` Python's
`ZeroDivisionError`, `indexError` an out-of-range list index, and
`modelError` stands for a failure escaping the predictive-model collaborator. -/
inductive SimError where
  | invalidInput : String → SimError
  | zeroDivisionError : SimError
  | indexError : SimError
  | modelError : SimError
deriving Repr, DecidableEq

/-- `_is_power_of_two` (simulation.py lines 13-14): `n > 0 and (n & (n - 1)) == 0`. -/
def is_power_of_two (n : ℕ) : Bool :=
  decide (0 < n) && (n &&& (n - 1) == 0)

/-- Interface of the numpy generator `np.random.default_rng(seed)`.
`init seed` builds the generator state, `draw` produces one uniform variate
in `[0,1)` and advances the state (one inverse-CDF sample, as consumed by
`Generator.choice`), `shuffle` returns the in-place permutation that
`Generator.shuffle` applies, together with the advanced state.  numpy is a
third-party collaborator, so the generator stays abstract; theorems take its
documented guarantees as hypotheses where they matter. -/
structure RngOps (σ : Type) where
  init : ℕ → σ
  draw : σ → ℚ × σ
  shuffle : σ → List Team → List Team × σ

/-- The three labels of `rng.choice(labels, p=probs_arr)`. -/
inductive Outcome where
  | home_win : Outcome
  | draw : Outcome
  | away_win : Outcome
deriving Repr, DecidableEq

/-- Body of the match loop (simulation.py lines 88-114): call the model
collaborator for the fixture, renormalize the probability triple - with the
all-zero fallback `[1.0, 0.0, 0.0]` when the sum is ≤ 0 -, sample the outcome
(`rng.choice` over `["home_win", "draw", "away_win"]`, by inverse CDF on one
uniform draw), and break a draw with `rng.choice([home, away])`, i.e. a
second uniform draw against 1/2. -/
def playMatch {σ : Type} (model : Team → Team → Except SimError MatchProbs)
    (R : RngOps σ) (s : σ) (home away : Team) : Except SimError (Team × σ) := do
  let probs ← model home away
  let total := probs.home_win + probs.draw + probs.away_win
  let p : MatchProbs :=
    if total ≤ 0 then ⟨1, 0, 0⟩
    else ⟨probs.home_win / total, probs.draw / total, probs.away_win / total⟩
  let (u, s1) := R.draw s
  let outcome : Outcome :=
    if u < p.home_win then .home_win
    else if u < p.home_win + p.draw then .draw
    else .away_win
  match outcome with
  | .home_win => .ok (home, s1)
  | .away_win => .ok (away, s1)
  | .draw =>
      let (v, s2) := R.draw s1
      .ok ((if v < (1 : ℚ) / 2 then home else away), s2)

/-- The pairing loop `for i in range(0, n, 2)` (lines 87-114): resolve the
pairs `(current_round[i], current_round[i+1])` left to right.  On an
odd-length round the final `current_round[i + 1]` is out of range and raises
`IndexError`. -/
def playRound {σ : Type} (model : Team → Team → Except SimError MatchProbs)
    (R : RngOps σ) : σ → List Team → Except SimError (List Team × σ)
  | s, [] => .ok ([], s)
  | _, [_] => .error .indexError
  | s, home :: away :: rest => do
      let (winner, s1) ← playMatch model R s home away
      let (ws, s2) ← playRound model R s1 rest
      .ok (winner :: ws, s2)

/-- `stats[t]["finals"] += 1` for one team of the stats dict. -/
def bumpFinals (stats : Team → TeamStats) (t : Team) : Team → TeamStats :=
  fun x => if x = t then ⟨(stats x).wins, (stats x).finals + 1, (stats x).semis⟩ else stats x

/-- `stats[t]["semis"] += 1` for one team of the stats dict. -/
def bumpSemis (stats : Team → TeamStats) (t : Team) : Team → TeamStats :=
  fun x => if x = t then ⟨(stats x).wins, (stats x).finals, (stats x).semis + 1⟩ else stats x

/-- `for t in current_round: stats[t]["finals"] += 1` (lines 81-83). -/
def markFinals : List Team → (Team → TeamStats) → (Team → TeamStats)
  | [], stats => stats
  | t :: rest, stats => markFinals rest (bumpFinals stats t)

/-- `for t in current_round: stats[t]["semis"] += 1` (lines 76-78). -/
def markSemis : List Team → (Team → TeamStats) → (Team → TeamStats)
  | [], stats => stats
  | t :: rest, stats => markSemis rest (bumpSemis stats t)

/-- The `while len(current_round) > 1` loop (lines 72-116), with an explicit
fuel argument to make the recursion structural.  The callers always supply
`fuel = current_round.length`, which is enough fuel: the round length at
least halves at every successful iteration, so the guard is already false
whenever the fuel runs out (`runRoundsAux_fuel` below proves the result does
not depend on any sufficient fuel). -/
def runRoundsAux {σ : Type} (model : Team → Team → Except SimError MatchProbs)
    (R : RngOps σ) :
    ℕ → σ → List Team → (Team → TeamStats) →
    Except SimError ((Team → TeamStats) × List Team × σ)
  | 0, s, cur, stats => .ok (stats, cur, s)
  | fuel + 1, s, cur, stats =>
    if 1 < cur.length then
      let stats1 := if cur.length = 4 then markSemis cur stats else stats
      let stats2 := if cur.length = 2 then markFinals cur stats1 else stats1
      match playRound model R s cur with
      | .error e => .error e
      | .ok (next, s1) => runRoundsAux model R fuel s1 next stats2
    else
      .ok (stats, cur, s)

/-- The round loop of `_simulate_single_tournament`, started with its
canonical fuel. -/
def runRounds {σ : Type} (model : Team → Team → Except SimError MatchProbs)
    (R : RngOps σ) (s : σ) (cur : List Team) (stats : Team → TeamStats) :
    Except SimError ((Team → TeamStats) × List Team × σ) :=
  runRoundsAux model R cur.length s cur stats

/-- The zero-initialized stats dict `{team: {"wins": 0, "finals": 0, "semis": 0}}`.
The dict is modelled as a total function; every access the code performs is
at a key of the team list (shuffling permutes), so no `KeyError` arises. -/
def zeroStats : Team → TeamStats := fun _ => ⟨0, 0, 0⟩

/-- `champion = current_round[0]; stats[champion]["wins"] += 1` (lines 118-119);
indexing an empty list raises `IndexError`. -/
def crownChampion (stats : Team → TeamStats) :
    List Team → Except SimError (Team → TeamStats)
  | [] => .error .indexError
  | c :: _ =>
      .ok fun x => if x = c then ⟨(stats x).wins + 1, (stats x).finals, (stats x).semis⟩ else stats x

/-- `_simulate_single_tournament` (simulation.py lines 56-121): shuffle a copy
of the team list (`current_round = teams[:]; rng.shuffle(current_round)`),
run the knockout rounds, then crown `current_round[0]`. -/
def simulate_single_tournament {σ : Type}
    (model : Team → Team → Except SimError MatchProbs) (R : RngOps σ)
    (teams : List Team) (s : σ) : Except SimError ((Team → TeamStats) × σ) := do
  let (shuffled, s1) := R.shuffle s teams
  let (stats, final, s2) ← runRounds model R s1 shuffled zeroStats
  let stats2 ← crownChampion stats final
  .ok (stats2, s2)

/-- The dedup loop of `simulate_tournament` (lines 160-166): keep the first
occurrence of every team, preserving order.  The Python `seen` set is a list
here; only membership is used. -/
def dedupGo (seen : List Team) : List Team → List Team
  | [] => []
  | t :: rest => if t ∈ seen then dedupGo seen rest else t :: dedupGo (t :: seen) rest

def dedup (teams : List Team) : List Team := dedupGo [] teams

/-- Pointwise accumulation `aggregate[team][k] += s[k]` (lines 181-184). -/
def addTeamStats (a b : TeamStats) : TeamStats :=
  ⟨a.wins + b.wins, a.finals + b.finals, a.semis + b.semis⟩

/-- The Monte Carlo loop `for _ in range(n_runs)` (lines 179-184): run the
single tournaments sequentially against the one live generator, accumulating
the per-team counters. -/
def runSims {σ : Type} (model : Team → Team → Except SimError MatchProbs)
    (R : RngOps σ) (teams : List Team) :
    ℕ → σ → (Team → TeamStats) → Except SimError ((Team → TeamStats) × σ)
  | 0, s, agg => .ok (agg, s)
  | n + 1, s, agg => do
      let (single, s1) ← simulate_single_tournament model R teams s
      runSims model R teams n s1 (fun t => addTeamStats (agg t) (single t))

/-- Python's true division on the integer counters (`s["wins"] / n_runs`):
raises `ZeroDivisionError` on a zero divisor, otherwise yields the exact
quotient (the float result is modelled as a rational). -/
def pyDiv (a b : ℤ) : Except SimError ℚ :=
  if b = 0 then .error .zeroDivisionError else .ok ((a : ℚ) / (b : ℚ))

/-- One entry of the summary dict (lines 189-196). -/
structure TeamSummary where
  wins : ℕ
  finals : ℕ
  semis : ℕ
  win_prob : ℚ
  final_prob : ℚ
  semi_prob : ℚ
deriving Repr, DecidableEq

/-- The summary construction loop (lines 187-196), iterating the aggregate
dict in insertion order, i.e. in the order of the deduplicated team list. -/
def mkSummary (agg : Team → TeamStats) (n_runs : ℤ) :
    List Team → Except SimError (List (Team × TeamSummary))
  | [] => .ok []
  | t :: rest => do
      let s := agg t
      let wp ← pyDiv s.wins n_runs
      let fp ← pyDiv s.finals n_runs
      let sp ← pyDiv s.semis n_runs
      let tail ← mkSummary agg n_runs rest
      .ok ((t, ⟨s.wins, s.finals, s.semis, wp, fp, sp⟩) :: tail)

/-- The success payload of `simulate_tournament`: these fields are both
persisted in the `SimulationRun` row (`teams=unique_teams, n_runs, results=summary`)
and returned to the caller (whose response additionally carries the fresh row
id and the constant status "success").  An `.error` result models a raised
exception: nothing is returned and nothing is persisted. -/
structure SimResult where
  teams : List Team
  n_runs : ℤ
  summary : List (Team × TeamSummary)
deriving Repr, DecidableEq

/-- `simulate_tournament` (simulation.py lines 124-225).  `loadModel` is the
`load_active_model()` call of line 169 (it raises when no model is ACTIVE),
`model` the per-fixture collaborator `simulate_match`, and the generator is
freshly seeded with the constant 42 (line 177).  `n_runs` is a Python int:
`range(n_runs)` runs `max n_runs 0` times, and the final count/n_runs
divisions raise `ZeroDivisionError` when `n_runs = 0`. -/
def simulate_tournament {σ : Type} (R : RngOps σ) (loadModel : Except SimError Unit)
    (model : Team → Team → Except SimError MatchProbs)
    (teams : List Team) (n_runs : ℤ) : Except SimError SimResult :=
  if teams.length < 2 then
    .error (.invalidInput "Need at least 2 teams to simulate a tournament.")
  else if is_power_of_two teams.length = false then
    .error (.invalidInput "Number of teams must be a power of two for simple knockout.")
  else do
    let unique := dedup teams
    let _ ← loadModel
    let (agg, _) ← runSims model R unique n_runs.toNat (R.init 42) zeroStats
    let summary ← mkSummary agg n_runs unique
    .ok ⟨unique, n_runs, summary⟩

/-- A concrete generator instance for witnesses: the identity shuffle and a
constant stream of zero draws (a legal state of the abstract interface:
draws lie in `[0,1)` and the shuffle is a permutation). -/
def constRng : RngOps Unit where
  init := fun _ => ()
  draw := fun s => (0, s)
  shuffle := fun s l => (l, s)

/-- A concrete model collaborator for witnesses: every fixture is a certain
home win. -/
def homeModel : Team → Team → Except SimError MatchProbs :=
  fun _ _ => .ok ⟨1, 0, 0⟩

/-- A concrete generator for witnesses whose shuffle alternates between the
identity and reversal, the state counting the shuffles performed: distinct
runs of one simulation then play distinct fixtures. -/
def flipRng : RngOps ℕ where
  init := fun _ => 0
  draw := fun s => (0, s)
  shuffle := fun s l => (if s % 2 = 0 then l else l.reverse, s + 1)

/-- A concrete model collaborator for witnesses that fails on every fixture
hosted by team "B" and answers any other fixture with a certain home win. -/
def flakyModel : Team → Team → Except SimError MatchProbs :=
  fun home _ => if home = "B" then .error .modelError else .ok ⟨1, 0, 0⟩

/-- A store of Python list objects, making the aliasing in the simulation
explicit: a reference is an allocation index, `lists` holds each reference's
current contents, `next` the next fresh index.  In this view
`simulate_tournament` receives its `teams` argument as a reference into the
caller's store. -/
structure ListStore where
  lists : ℕ → List Team
  next : ℕ

/-- Dereference a list object. -/
def readRef (st : ListStore) (r : ℕ) : List Team := st.lists r

/-- Mutate a list object in place (`rng.shuffle` does this). -/
def writeRef (st : ListStore) (r : ℕ) (v : List Team) : ListStore :=
  ⟨fun i => if i = r then v else st.lists i, st.next⟩

/-- Allocate a fresh list object (list displays, comprehensions and slice
copies like `teams[:]` do this). -/
def allocRef (st : ListStore) (v : List Team) : ℕ × ListStore :=
  (st.next, ⟨fun i => if i = st.next then v else st.lists i, st.next + 1⟩)

/-- `_simulate_single_tournament` with the list mutations explicit:
`current_round = teams[:]` (line 69) allocates a fresh list with the same
contents, and `rng.shuffle(current_round)` (line 70) writes the permuted
contents back in place - into the copy, never into the caller's list.  The
knockout rounds only build fresh `next_round` lists, so they are the pure
`runRounds`. -/
def simulate_single_tournament_st {σ : Type}
    (model : Team → Team → Except SimError MatchProbs) (R : RngOps σ)
    (st : ListStore) (teamsRef : ℕ) (s : σ) :
    Except SimError ((Team → TeamStats) × ListStore × σ) := do
  let (crRef, st1) := allocRef st (readRef st teamsRef)
  let (shuffled, s1) := R.shuffle s (readRef st1 crRef)
  let st2 := writeRef st1 crRef shuffled
  let (stats, final, s2) ← runRounds model R s1 (readRef st2 crRef) zeroStats
  let stats2 ← crownChampion stats final
  .ok (stats2, st2, s2)

/-- The Monte Carlo loop of `simulate_tournament` over the store: every run
receives the same `unique_teams` reference (the live list object is reused,
each run re-copying and reshuffling it). -/
def run_sims_st {σ : Type} (model : Team → Team → Except SimError MatchProbs)
    (R : RngOps σ) (uniqueRef : ℕ) :
    ℕ → ListStore → σ → (Team → TeamStats) →
    Except SimError ((Team → TeamStats) × ListStore × σ)
  | 0, st, s, agg => .ok (agg, st, s)
  | n + 1, st, s, agg => do
      let (single, st1, s1) ← simulate_single_tournament_st model R st uniqueRef s
      run_sims_st model R uniqueRef n st1 s1 (fun t => addTeamStats (agg t) (single t))

/-- `simulate_tournament` with the caller's `teams` list held in a store.
`unique_teams` is a freshly allocated list built by the dedup loop, and each
run copies it before shuffling, so no write ever targets the caller's
reference. -/
def simulate_tournament_st {σ : Type} (R : RngOps σ) (loadModel : Except SimError Unit)
    (model : Team → Team → Except SimError MatchProbs)
    (st : ListStore) (teamsRef : ℕ) (n_runs : ℤ) :
    Except SimError (SimResult × ListStore) :=
  if (readRef st teamsRef).length < 2 then
    .error (.invalidInput "Need at least 2 teams to simulate a tournament.")
  else if is_power_of_two (readRef st teamsRef).length = false then
    .error (.invalidInput "Number of teams must be a power of two for simple knockout.")
  else do
    let (uniqueRef, st1) := allocRef st (dedup (readRef st teamsRef))
    let _ ← loadModel
    let (agg, st2, _) ← run_sims_st model R uniqueRef n_runs.toNat st1 (R.init 42) zeroStats
    let summary ← mkSummary agg n_runs (readRef st2 uniqueRef)
    .ok (⟨readRef st2 uniqueRef, n_runs, summary⟩, st2)

/-! ### Properties of the deduplication loop -/

theorem dedupGo_mem (seen : List Team) :
    ∀ (l : List Team) (x : Team), x ∈ dedupGo seen l ↔ (x ∈ l ∧ x ∉ seen)
  | [], x => by simp [dedupGo]
  | t :: rest, x => by
      by_cases ht : t ∈ seen
      · simp only [dedupGo, if_pos ht, dedupGo_mem seen rest x, List.mem_cons]
        by_cases hxt : x = t
        · subst hxt; tauto
        · tauto
      · simp only [dedupGo, if_neg ht, List.mem_cons, dedupGo_mem (t :: seen) rest x]
        by_cases hxt : x = t
        · subst hxt; tauto
        · tauto

theorem dedupGo_nodup (seen : List Team) : ∀ l : List Team, (dedupGo seen l).Nodup
  | [] => by simp [dedupGo]
  | t :: rest => by
      by_cases ht : t ∈ seen
      · simpa [dedupGo, if_pos ht] using dedupGo_nodup seen rest
      · simp only [dedupGo, if_neg ht, List.nodup_cons]
        refine ⟨fun hmem => ?_, dedupGo_nodup (t :: seen) rest⟩
        exact ((dedupGo_mem (t :: seen) rest t).mp hmem).2 (List.mem_cons_self t seen)

theorem dedupGo_sublist (seen : List Team) :
    ∀ l : List Team, (dedupGo seen l).Sublist l
  | [] => by simp [dedupGo]
  | t :: rest => by
      by_cases ht : t ∈ seen
      · simpa [dedupGo, if_pos ht] using (dedupGo_sublist seen rest).cons t
      · simpa [dedupGo, if_neg ht] using (dedupGo_sublist (t :: seen) rest).cons₂ t

theorem dedup_mem (l : List Team) (x : Team) : x ∈ dedup l ↔ x ∈ l := by
  simp [dedup, dedupGo_mem]

theorem dedup_nodup (l : List Team) : (dedup l).Nodup := dedupGo_nodup [] l

theorem dedup_sublist (l : List Team) : (dedup l).Sublist l := dedupGo_sublist [] l

theorem dedup_eq_nil_iff (l : List Team) : dedup l = [] ↔ l = [] := by
  cases l with
  | nil => simp [dedup, dedupGo]
  | cons t rest => simp [dedup, dedupGo]

/-! ### Properties of the round-marking folds -/

theorem markFinals_wins :
    ∀ (l : List Team) (stats : Team → TeamStats) (t : Team),
      (markFinals l stats t).wins = (stats t).wins
  | [], _, _ => rfl
  | a :: rest, stats, t => by
      rw [markFinals, markFinals_wins rest]
      unfold bumpFinals
      split <;> rfl

theorem markFinals_semis :
    ∀ (l : List Team) (stats : Team → TeamStats) (t : Team),
      (markFinals l stats t).semis = (stats t).semis
  | [], _, _ => rfl
  | a :: rest, stats, t => by
      rw [markFinals, markFinals_semis rest]
      unfold bumpFinals
      split <;> rfl

theorem markFinals_finals :
    ∀ (l : List Team) (stats : Team → TeamStats) (t : Team),
      (markFinals l stats t).finals = (stats t).finals + l.count t
  | [], _, _ => by simp [markFinals]
  | a :: rest, stats, t => by
      rw [markFinals, markFinals_finals rest, List.count_cons]
      unfold bumpFinals
      by_cases h : t = a
      · simp [h]; omega
      · simp [h, Ne.symm h]

theorem markSemis_wins :
    ∀ (l : List Team) (stats : Team → TeamStats) (t : Team),
      (markSemis l stats t).wins = (stats t).wins
  | [], _, _ => rfl
  | a :: rest, stats, t => by
      rw [markSemis, markSemis_wins rest]
      unfold bumpSemis
      split <;> rfl

theorem markSemis_finals :
    ∀ (l : List Team) (stats : Team → TeamStats) (t : Team),
      (markSemis l stats t).finals = (stats t).finals
  | [], _, _ => rfl
  | a :: rest, stats, t => by
      rw [markSemis, markSemis_finals rest]
      unfold bumpSemis
      split <;> rfl

theorem markSemis_semis :
    ∀ (l : List Team) (stats : Team → TeamStats) (t : Team),
      (markSemis l stats t).semis = (stats t).semis + l.count t
  | [], _, _ => by simp [markSemis]
  | a :: rest, stats, t => by
      rw [markSemis, markSemis_semis rest, List.count_cons]
      unfold bumpSemis
      by_cases h : t = a
      · simp [h]; omega
      · simp [h, Ne.symm h]

/-! ### Reduction lemmas for the `Except` monad -/

theorem exc_bind_ok {ε α β : Type} (a : α) (f : α → Except ε β) :
    (Except.ok a >>= f) = f a := rfl

theorem exc_bind_error {ε α β : Type} (e : ε) (f : α → Except ε β) :
    ((Except.error e : Except ε α) >>= f) = .error e := rfl

/-! ### Properties of one knockout round -/

theorem playMatch_ok_cases {σ : Type} (model : Team → Team → Except SimError MatchProbs)
    (R : RngOps σ) (s : σ) (home away w : Team) (s' : σ)
    (h : playMatch model R s home away = .ok (w, s')) : w = home ∨ w = away := by
  unfold playMatch at h
  cases hm : model home away with
  | error e =>
      simp only [hm, exc_bind_error] at h
      exact Except.noConfusion h
  | ok p =>
      simp only [hm, exc_bind_ok] at h
      split at h
      · rw [Except.ok.injEq, Prod.mk.injEq] at h
        exact Or.inl h.1.symm
      · rw [Except.ok.injEq, Prod.mk.injEq] at h
        exact Or.inr h.1.symm
      · rw [Except.ok.injEq, Prod.mk.injEq] at h
        obtain ⟨h1, -⟩ := h
        split at h1
        · exact Or.inl h1.symm
        · exact Or.inr h1.symm

theorem playRound_ok_mem {σ : Type} (model : Team → Team → Except SimError MatchProbs)
    (R : RngOps σ) :
    ∀ (l : List Team) (s : σ) (next : List Team) (s' : σ),
      playRound model R s l = .ok (next, s') → ∀ x ∈ next, x ∈ l
  | [], s, next, s', h => by
      simp only [playRound, Except.ok.injEq, Prod.mk.injEq] at h
      intro x hx
      rw [← h.1] at hx
      cases hx
  | [a], s, next, s', h => by simp [playRound] at h
  | a :: b :: rest, s, next, s', h => by
      rw [playRound] at h
      cases hpm : playMatch model R s a b with
      | error e =>
          simp only [hpm, exc_bind_error] at h
          exact Except.noConfusion h
      | ok ws1 =>
          obtain ⟨w, s1⟩ := ws1
          simp only [hpm, exc_bind_ok] at h
          cases hpr : playRound model R s1 rest with
          | error e =>
              simp only [hpr, exc_bind_error] at h
              exact Except.noConfusion h
          | ok wss2 =>
              obtain ⟨ws, s2⟩ := wss2
              simp only [hpr, exc_bind_ok, Except.ok.injEq, Prod.mk.injEq] at h
              obtain ⟨hnext, -⟩ := h
              intro x hx
              rw [← hnext] at hx
              rcases List.mem_cons.mp hx with rfl | hx
              · rcases playMatch_ok_cases model R s a b x s1 hpm with rfl | rfl
                · exact List.mem_cons_self _ _
                · exact List.mem_cons_of_mem _ (List.mem_cons_self _ _)
              · exact List.mem_cons_of_mem _
                  (List.mem_cons_of_mem _ (playRound_ok_mem model R rest s1 ws s2 hpr x hx))

theorem playRound_ok_length {σ : Type} (model : Team → Team → Except SimError MatchProbs)
    (R : RngOps σ) :
    ∀ (l : List Team) (s : σ) (next : List Team) (s' : σ),
      playRound model R s l = .ok (next, s') → 2 * next.length = l.length
  | [], s, next, s', h => by
      simp only [playRound, Except.ok.injEq, Prod.mk.injEq] at h
      rw [← h.1]; rfl
  | [a], s, next, s', h => by simp [playRound] at h
  | a :: b :: rest, s, next, s', h => by
      rw [playRound] at h
      cases hpm : playMatch model R s a b with
      | error e =>
          simp only [hpm, exc_bind_error] at h
          exact Except.noConfusion h
      | ok ws1 =>
          obtain ⟨w, s1⟩ := ws1
          simp only [hpm, exc_bind_ok] at h
          cases hpr : playRound model R s1 rest with
          | error e =>
              simp only [hpr, exc_bind_error] at h
              exact Except.noConfusion h
          | ok wss2 =>
              obtain ⟨ws, s2⟩ := wss2
              simp only [hpr, exc_bind_ok, Except.ok.injEq, Prod.mk.injEq] at h
              obtain ⟨h1, -⟩ := h
              have hlen := playRound_ok_length model R rest s1 ws s2 hpr
              rw [← h1]
              simp only [List.length_cons]
              omega

theorem playRound_ok_nodup {σ : Type} (model : Team → Team → Except SimError MatchProbs)
    (R : RngOps σ) :
    ∀ (l : List Team) (s : σ) (next : List Team) (s' : σ),
      playRound model R s l = .ok (next, s') → l.Nodup → next.Nodup
  | [], s, next, s', h, _ => by
      simp only [playRound, Except.ok.injEq, Prod.mk.injEq] at h
      rw [← h.1]; exact List.nodup_nil
  | [a], s, next, s', h, _ => by simp [playRound] at h
  | a :: b :: rest, s, next, s', h, hnd => by
      rw [playRound] at h
      cases hpm : playMatch model R s a b with
      | error e =>
          simp only [hpm, exc_bind_error] at h
          exact Except.noConfusion h
      | ok ws1 =>
          obtain ⟨w, s1⟩ := ws1
          simp only [hpm, exc_bind_ok] at h
          cases hpr : playRound model R s1 rest with
          | error e =>
              simp only [hpr, exc_bind_error] at h
              exact Except.noConfusion h
          | ok wss2 =>
              obtain ⟨ws, s2⟩ := wss2
              simp only [hpr, exc_bind_ok, Except.ok.injEq, Prod.mk.injEq] at h
              obtain ⟨h1, -⟩ := h
              rw [← h1]
              simp only [List.nodup_cons] at hnd ⊢
              obtain ⟨ha, hb, hrest⟩ := hnd
              simp only [List.mem_cons, not_or] at ha
              refine ⟨fun hwm => ?_, playRound_ok_nodup model R rest s1 ws s2 hpr hrest⟩
              have hsub := playRound_ok_mem model R rest s1 ws s2 hpr
              rcases playMatch_ok_cases model R s a b w s1 hpm with rfl | rfl
              · exact ha.2 (hsub _ hwm)
              · exact hb (hsub _ hwm)

/-- The counters of a uniform `stats[t][k] += 1` loop over a duplicate-free
round add exactly the membership indicator. -/
theorem count_nodup_ind (l : List Team) (hl : l.Nodup) (t : Team) :
    l.count t = if t ∈ l then 1 else 0 := by
  split
  · exact List.count_eq_one_of_mem hl (by assumption)
  · exact List.count_eq_zero_of_not_mem (by assumption)

/-! ### Properties of the round loop -/

theorem runRoundsAux_fuel {σ : Type} (model : Team → Team → Except SimError MatchProbs)
    (R : RngOps σ) (f1 : ℕ) :
    ∀ (f2 : ℕ) (s : σ) (cur : List Team) (stats : Team → TeamStats),
      cur.length ≤ f1 → cur.length ≤ f2 →
      runRoundsAux model R f1 s cur stats = runRoundsAux model R f2 s cur stats := by
  induction f1 with
  | zero =>
      intro f2 s cur stats h1 h2
      have hcur : cur = [] := List.length_eq_zero.mp (Nat.le_zero.mp h1)
      subst hcur
      cases f2 with
      | zero => rfl
      | succ f2 => simp [runRoundsAux]
  | succ f1 ih =>
      intro f2 s cur stats h1 h2
      by_cases hlen : 1 < cur.length
      · cases f2 with
        | zero => omega
        | succ f2 =>
            rw [runRoundsAux, runRoundsAux, if_pos hlen, if_pos hlen]
            cases hpr : playRound model R s cur with
            | error e => simp only [hpr]
            | ok pr =>
                obtain ⟨next, s1⟩ := pr
                simp only [hpr]
                have hnl := playRound_ok_length model R cur s next s1 hpr
                exact ih f2 s1 next _ (by omega) (by omega)
      · cases f2 with
        | zero =>
            have hcur : cur = [] := List.length_eq_zero.mp (Nat.le_zero.mp h2)
            subst hcur
            simp [runRoundsAux]
        | succ f2 => rw [runRoundsAux, runRoundsAux, if_neg hlen, if_neg hlen]

theorem runRoundsAux_final {σ : Type} (model : Team → Team → Except SimError MatchProbs)
    (R : RngOps σ) (fuel : ℕ) :
    ∀ (s : σ) (cur : List Team) (stats : Team → TeamStats)
      (out : (Team → TeamStats) × List Team × σ),
      cur.length ≤ fuel →
      runRoundsAux model R fuel s cur stats = .ok out →
      (∀ x ∈ out.2.1, x ∈ cur) ∧ out.2.1.length ≤ 1 ∧ (cur ≠ [] → out.2.1 ≠ []) := by
  induction fuel with
  | zero =>
      intro s cur stats out hle h
      have hcur : cur = [] := List.length_eq_zero.mp (Nat.le_zero.mp hle)
      subst hcur
      rw [runRoundsAux] at h
      rw [Except.ok.injEq] at h
      rw [← h]
      exact ⟨fun x hx => hx, Nat.zero_le 1, fun hc => absurd rfl hc⟩
  | succ fuel ih =>
      intro s cur stats out hle h
      rw [runRoundsAux] at h
      by_cases hlen : 1 < cur.length
      · rw [if_pos hlen] at h
        cases hpr : playRound model R s cur with
        | error e =>
            simp only [hpr] at h
            exact Except.noConfusion h
        | ok pr =>
            obtain ⟨next, s1⟩ := pr
            simp only [hpr] at h
            have hnl := playRound_ok_length model R cur s next s1 hpr
            obtain ⟨hsub, hlen1, hne⟩ := ih s1 next _ out (by omega) h
            have hsubnext := playRound_ok_mem model R cur s next s1 hpr
            refine ⟨fun x hx => hsubnext x (hsub x hx), hlen1, fun _ => hne ?_⟩
            intro hnil
            rw [hnil] at hnl
            simp at hnl
            omega
      · rw [if_neg hlen] at h
        rw [Except.ok.injEq] at h
        rw [← h]
        exact ⟨fun x hx => hx, by show cur.length ≤ 1; omega, fun hc => hc⟩

/-- A successful pass through the loop body implies the round had even
length. -/
theorem runRoundsAux_ok_even {σ : Type} (model : Team → Team → Except SimError MatchProbs)
    (R : RngOps σ) (fuel : ℕ) (s : σ) (cur : List Team) (stats : Team → TeamStats)
    (out : (Team → TeamStats) × List Team × σ)
    (h : runRoundsAux model R fuel s cur stats = .ok out)
    (hle : cur.length ≤ fuel) (hlen : 1 < cur.length) : cur.length % 2 = 0 := by
  obtain ⟨f, rfl⟩ : ∃ f, fuel = f + 1 := ⟨fuel - 1, by omega⟩
  rw [runRoundsAux, if_pos hlen] at h
  cases hpr : playRound model R s cur with
  | error e =>
      simp only [hpr] at h
      exact Except.noConfusion h
  | ok pr =>
      obtain ⟨next, s1⟩ := pr
      have := playRound_ok_length model R cur s next s1 hpr
      omega

/-- Master description of a successful round loop on a duplicate-free round:
the `wins` counters are untouched; `finals` and `semis` grow by exactly the
membership indicator of the round of 2 (`pair`) and of the round of 4
(`four`); both rounds are duplicate-free subsets of the starting round, the
finalists are among the semifinalists, and the surviving team is among the
finalists. -/
theorem runRoundsAux_spec {σ : Type} (model : Team → Team → Except SimError MatchProbs)
    (R : RngOps σ) (fuel : ℕ) :
    ∀ (s : σ) (cur : List Team) (stats : Team → TeamStats)
      (out : (Team → TeamStats) × List Team × σ),
      cur.length ≤ fuel → cur.Nodup →
      runRoundsAux model R fuel s cur stats = .ok out →
      ∃ pair four : List Team,
        (2 ≤ cur.length → pair.length = 2) ∧ (cur.length < 2 → pair = []) ∧
        (4 ≤ cur.length → four.length = 4) ∧ (cur.length < 4 → four = []) ∧
        pair.Nodup ∧ four.Nodup ∧
        (∀ x ∈ pair, x ∈ cur) ∧ (∀ x ∈ four, x ∈ cur) ∧
        (4 ≤ cur.length → ∀ x ∈ pair, x ∈ four) ∧
        (2 ≤ cur.length → ∀ x ∈ out.2.1, x ∈ pair) ∧
        (∀ t, (out.1 t).wins = (stats t).wins ∧
              (out.1 t).finals = (stats t).finals + (if t ∈ pair then 1 else 0) ∧
              (out.1 t).semis = (stats t).semis + (if t ∈ four then 1 else 0)) := by
  induction fuel with
  | zero =>
      intro s cur stats out hle hnd h
      have hcur : cur = [] := List.length_eq_zero.mp (Nat.le_zero.mp hle)
      subst hcur
      rw [runRoundsAux, Except.ok.injEq] at h
      refine ⟨[], [], ?_, ?_, ?_, ?_, List.nodup_nil, List.nodup_nil, ?_, ?_, ?_, ?_, ?_⟩ <;>
        simp [← h]
  | succ fuel ih =>
      intro s cur stats out hle hnd h
      rw [runRoundsAux] at h
      by_cases hlen : 1 < cur.length
      · rw [if_pos hlen] at h
        cases hpr : playRound model R s cur with
        | error e =>
            simp only [hpr] at h
            exact Except.noConfusion h
        | ok pr =>
            obtain ⟨next, s1⟩ := pr
            simp only [hpr] at h
            have hnl := playRound_ok_length model R cur s next s1 hpr
            have hnextsub := playRound_ok_mem model R cur s next s1 hpr
            have hnextnd := playRound_ok_nodup model R cur s next s1 hpr hnd
            rcases (show cur.length = 2 ∨ cur.length = 4 ∨ 6 ≤ cur.length from by omega)
              with h2 | h4 | h6
            · -- round of 2: mark the finalists, recurse on the single winner
              rw [if_neg (show ¬cur.length = 4 by omega), if_pos h2] at h
              obtain ⟨pairR, fourR, hp2, hp0, hf4, hf0, hpnd, hfnd, hpsub, hfsub,
                hpf, hfin, hstats⟩ := ih s1 next _ out (by omega) hnextnd h
              have hpe : pairR = [] := hp0 (by omega)
              have hfe : fourR = [] := hf0 (by omega)
              obtain ⟨hfinsub, -, -⟩ := runRoundsAux_final model R fuel s1 next _ out (by omega) h
              refine ⟨cur, [], fun _ => h2, fun hc => absurd hc (by omega),
                fun hc => absurd hc (by omega), fun _ => rfl, hnd, List.nodup_nil,
                fun x hx => hx, fun x hx => absurd hx (List.not_mem_nil x),
                fun hc => absurd hc (by omega),
                fun _ x hx => hnextsub x (hfinsub x hx), fun t => ?_⟩
              obtain ⟨hw, hf, hs⟩ := hstats t
              rw [hpe] at hf
              rw [hfe] at hs
              simp only [List.not_mem_nil, if_false] at hf hs
              refine ⟨?_, ?_, ?_⟩
              · rw [hw, markFinals_wins]
              · rw [hf, markFinals_finals, count_nodup_ind cur hnd]
                simp
              · rw [hs, markFinals_semis]
                simp
            · -- round of 4: mark the semifinalists, recurse on the round of 2
              rw [if_pos h4, if_neg (show ¬cur.length = 2 by omega)] at h
              obtain ⟨pairR, fourR, hp2, hp0, hf4, hf0, hpnd, hfnd, hpsub, hfsub,
                hpf, hfin, hstats⟩ := ih s1 next _ out (by omega) hnextnd h
              have hfe : fourR = [] := hf0 (by omega)
              refine ⟨pairR, cur, fun _ => hp2 (by omega), fun hc => absurd hc (by omega),
                fun _ => h4, fun hc => absurd hc (by omega), hpnd, hnd,
                fun x hx => hnextsub x (hpsub x hx), fun x hx => hx,
                fun _ x hx => hnextsub x (hpsub x hx),
                fun _ x hx => hfin (by omega) x hx, fun t => ?_⟩
              obtain ⟨hw, hf, hs⟩ := hstats t
              rw [hfe] at hs
              simp only [List.not_mem_nil, if_false] at hs
              refine ⟨?_, ?_, ?_⟩
              · rw [hw, markSemis_wins]
              · rw [hf, markSemis_finals]
              · rw [hs, markSemis_semis, count_nodup_ind cur hnd]
                simp
            · -- larger round: no marking, recurse
              rw [if_neg (show ¬cur.length = 4 by omega),
                if_neg (show ¬cur.length = 2 by omega)] at h
              have h1n : 1 < next.length := by omega
              have hev2 : next.length % 2 = 0 :=
                runRoundsAux_ok_even model R fuel s1 next stats out h (by omega) h1n
              obtain ⟨pairR, fourR, hp2, hp0, hf4, hf0, hpnd, hfnd, hpsub, hfsub,
                hpf, hfin, hstats⟩ := ih s1 next _ out (by omega) hnextnd h
              refine ⟨pairR, fourR, fun _ => hp2 (by omega), fun hc => absurd hc (by omega),
                fun _ => hf4 (by omega), fun hc => absurd hc (by omega), hpnd, hfnd,
                fun x hx => hnextsub x (hpsub x hx), fun x hx => hnextsub x (hfsub x hx),
                fun _ x hx => hpf (by omega) x hx,
                fun _ x hx => hfin (by omega) x hx, hstats⟩
      · rw [if_neg hlen, Except.ok.injEq] at h
        refine ⟨[], [], fun hc => absurd hc (by omega), fun _ => rfl,
          fun hc => absurd hc (by omega), fun _ => rfl, List.nodup_nil, List.nodup_nil,
          fun x hx => absurd hx (List.not_mem_nil x), fun x hx => absurd hx (List.not_mem_nil x),
          fun hc => absurd hc (by omega), fun hc => absurd hc (by omega), fun t => ?_⟩
      -- the loop was never entered: the stats are returned unchanged
        rw [← h]
        simp

/-! ### Sum lemmas for the per-team counters -/

theorem sum_map_add (l : List Team) (f g : Team → ℕ) :
    (l.map fun t => f t + g t).sum = (l.map f).sum + (l.map g).sum := by
  induction l with
  | nil => rfl
  | cons a tl ih =>
      simp only [List.map_cons, List.sum_cons, ih]
      omega

theorem sum_indicator :
    ∀ (l sub : List Team), l.Nodup → sub.Nodup → (∀ x ∈ sub, x ∈ l) →
      (l.map fun t => if t ∈ sub then (1 : ℕ) else 0).sum = sub.length
  | [], sub, _, _, hss => by
      cases sub with
      | nil => rfl
      | cons a tl => exact absurd (hss a (List.mem_cons_self a tl)) (List.not_mem_nil a)
  | h :: tl, sub, hl, hsub, hss => by
      simp only [List.map_cons, List.sum_cons]
      simp only [List.nodup_cons] at hl
      obtain ⟨hht, htl⟩ := hl
      have hcongr : (tl.map fun t => if t ∈ sub then (1 : ℕ) else 0) =
          (tl.map fun t => if t ∈ sub.erase h then (1 : ℕ) else 0) := by
        apply List.map_congr_left
        intro t ht
        have hne : t ≠ h := fun he => hht (he ▸ ht)
        simp [List.mem_erase_of_ne hne]
      have hsub' : ∀ x ∈ sub.erase h, x ∈ tl := by
        intro x hx
        obtain ⟨hxh, hxs⟩ := (List.Nodup.mem_erase_iff hsub).mp hx
        rcases List.mem_cons.mp (hss x hxs) with h1 | h1
        · exact absurd h1 hxh
        · exact h1
      rw [hcongr, sum_indicator tl (sub.erase h) htl (hsub.erase h) hsub']
      by_cases hh : h ∈ sub
      · rw [if_pos hh, List.length_erase_of_mem hh]
        have : 1 ≤ sub.length := List.length_pos_of_mem hh
        omega
      · rw [if_neg hh, List.erase_of_not_mem hh]
        omega

/-! ### One full single-tournament run -/

/-- Full description of one successful `_simulate_single_tournament` run over
a duplicate-free nonempty team list, assuming the generator shuffle permutes
its input (numpy's documented behaviour): there exist a champion, the final
round and the semifinal round, and the resulting tally is exactly their
membership indicators. -/
theorem simulate_single_tournament_spec {σ : Type}
    (model : Team → Team → Except SimError MatchProbs) (R : RngOps σ)
    (hsh : ∀ (s : σ) (l : List Team), ((R.shuffle s l).1).Perm l)
    (teams : List Team) (s : σ) (st : Team → TeamStats) (sF : σ)
    (hnd : teams.Nodup) (hne : teams ≠ [])
    (h : simulate_single_tournament model R teams s = .ok (st, sF)) :
    ∃ (c : Team) (pair four : List Team),
      c ∈ teams ∧
      pair.Nodup ∧ four.Nodup ∧
      (∀ x ∈ pair, x ∈ teams) ∧ (∀ x ∈ four, x ∈ teams) ∧
      (2 ≤ teams.length → pair.length = 2 ∧ c ∈ pair) ∧
      (teams.length < 2 → pair = []) ∧
      (4 ≤ teams.length → four.length = 4 ∧ ∀ x ∈ pair, x ∈ four) ∧
      (teams.length < 4 → four = []) ∧
      (∀ t, (st t).wins = (if t = c then 1 else 0) ∧
            (st t).finals = (if t ∈ pair then 1 else 0) ∧
            (st t).semis = (if t ∈ four then 1 else 0)) := by
  rw [simulate_single_tournament] at h
  rcases hshuf : R.shuffle s teams with ⟨shuffled, s1⟩
  simp only [hshuf] at h
  have hperm : shuffled.Perm teams := by
    have := hsh s teams
    rw [hshuf] at this
    exact this
  have hndsh : shuffled.Nodup := (hperm.nodup_iff).mpr hnd
  have hlensh : shuffled.length = teams.length := hperm.length_eq
  cases hrr : runRounds model R s1 shuffled zeroStats with
  | error e =>
      simp only [hrr, exc_bind_error] at h
      exact Except.noConfusion h
  | ok r3 =>
      obtain ⟨stats, fin, s2⟩ := r3
      simp only [hrr, exc_bind_ok] at h
      rw [runRounds] at hrr
      obtain ⟨pair, four, hp2, hp0, hf4, hf0, hpnd, hfnd, hpsub, hfsub, hpf, hfin, hstats⟩ :=
        runRoundsAux_spec model R shuffled.length s1 shuffled zeroStats _ le_rfl hndsh hrr
      obtain ⟨hfinsub, hfinlen, hfinne⟩ :=
        runRoundsAux_final model R shuffled.length s1 shuffled zeroStats _ le_rfl hrr
      have hshne : shuffled ≠ [] := by
        intro hnil
        apply hne
        have := hperm.length_eq
        rw [hnil] at this
        exact List.length_eq_zero.mp this.symm
      dsimp only at hfin hstats hfinsub hfinne
      have hfne : fin ≠ [] := hfinne hshne
      obtain ⟨c, rest, hfc⟩ : ∃ c rest, fin = c :: rest := by
        cases hfcase : fin with
        | nil => exact absurd hfcase hfne
        | cons c rest => exact ⟨c, rest, rfl⟩
      rw [hfc] at h
      rw [crownChampion, exc_bind_ok, Except.ok.injEq, Prod.mk.injEq] at h
      obtain ⟨hst, -⟩ := h
      have hcmem : c ∈ shuffled := hfinsub c (by rw [hfc]; exact List.mem_cons_self c rest)
      refine ⟨c, pair, four, hperm.subset hcmem, hpnd, hfnd,
        fun x hx => hperm.subset (hpsub x hx), fun x hx => hperm.subset (hfsub x hx),
        fun h2 => ⟨hp2 (by omega), hfin (by omega) c (by rw [hfc]; exact List.mem_cons_self c rest)⟩,
        fun h2 => hp0 (by omega),
        fun h4 => ⟨hf4 (by omega), hpf (by omega)⟩,
        fun h4 => hf0 (by omega),
        fun t => ?_⟩
      obtain ⟨hw, hf, hsms⟩ := hstats t
      rw [← hst]
      by_cases hc : t = c
      · subst hc
        refine ⟨?_, ?_, ?_⟩ <;> simp [hw, hf, hsms, zeroStats]
      · refine ⟨?_, ?_, ?_⟩ <;> simp [hc, hw, hf, hsms, zeroStats]

/-! ### The Monte Carlo aggregation loop -/

/-- Conservation and monotonicity facts accumulated over `n` successful runs
on a duplicate-free nonempty team list: the champion counters gain exactly
`n`, the finalist counters `2 * n` (bracket of size ≥ 2), the semifinalist
counters `4 * n` (bracket of size ≥ 4, and nothing at all below size 4), and
per team the champion gain never exceeds the finalist gain, nor the finalist
gain the semifinalist gain. -/
theorem runSims_spec {σ : Type} (model : Team → Team → Except SimError MatchProbs)
    (R : RngOps σ)
    (hsh : ∀ (s : σ) (l : List Team), ((R.shuffle s l).1).Perm l)
    (teams : List Team) (hnd : teams.Nodup) (hne : teams ≠ []) :
    ∀ (n : ℕ) (s : σ) (agg : Team → TeamStats) (out : (Team → TeamStats) × σ),
      runSims model R teams n s agg = .ok out →
      ((teams.map fun t => (out.1 t).wins).sum = (teams.map fun t => (agg t).wins).sum + n) ∧
      (2 ≤ teams.length →
        (teams.map fun t => (out.1 t).finals).sum =
          (teams.map fun t => (agg t).finals).sum + 2 * n) ∧
      (4 ≤ teams.length →
        (teams.map fun t => (out.1 t).semis).sum =
          (teams.map fun t => (agg t).semis).sum + 4 * n) ∧
      (teams.length < 4 → ∀ t, (out.1 t).semis = (agg t).semis) ∧
      (2 ≤ teams.length →
        ∀ t, (out.1 t).wins + (agg t).finals ≤ (out.1 t).finals + (agg t).wins) ∧
      (4 ≤ teams.length →
        ∀ t, (out.1 t).finals + (agg t).semis ≤ (out.1 t).semis + (agg t).finals) := by
  intro n
  induction n with
  | zero =>
      intro s agg out h
      rw [runSims, Except.ok.injEq] at h
      rw [← h]
      refine ⟨rfl, fun _ => rfl, fun _ => rfl, fun _ _ => rfl, fun _ t => ?_, fun _ t => ?_⟩
      · show (agg t).wins + (agg t).finals ≤ (agg t).finals + (agg t).wins
        omega
      · show (agg t).finals + (agg t).semis ≤ (agg t).semis + (agg t).finals
        omega
  | succ n ih =>
      intro s agg out h
      rw [runSims] at h
      cases hone : simulate_single_tournament model R teams s with
      | error e =>
          simp only [hone, exc_bind_error] at h
          exact Except.noConfusion h
      | ok pr =>
          obtain ⟨single, s1⟩ := pr
          simp only [hone, exc_bind_ok] at h
          obtain ⟨c, pair, four, hc, hpnd, hfnd, hpsub, hfsub, hp2, hp0, hf4, hf0, hstats⟩ :=
            simulate_single_tournament_spec model R hsh teams s single s1 hnd hne hone
          obtain ⟨ihW, ihF, ihS, ihS0, ihWF, ihFS⟩ := ih s1 _ out h
          have haggW : (teams.map fun t => (addTeamStats (agg t) (single t)).wins).sum =
              (teams.map fun t => (agg t).wins).sum + 1 := by
            have h1 : (teams.map fun t => (addTeamStats (agg t) (single t)).wins).sum =
                (teams.map fun t => (agg t).wins).sum +
                (teams.map fun t => (single t).wins).sum := by
              rw [← sum_map_add]
              rfl
            have h2 : (teams.map fun t => (single t).wins).sum = 1 := by
              have hcongr : (teams.map fun t => (single t).wins) =
                  (teams.map fun t => if t ∈ [c] then (1 : ℕ) else 0) := by
                apply List.map_congr_left
                intro t _
                rw [(hstats t).1]
                simp [List.mem_singleton]
              rw [hcongr, sum_indicator teams [c] hnd (List.nodup_singleton c)
                (by intro x hx; rw [List.mem_singleton] at hx; rw [hx]; exact hc)]
              rfl
            rw [h1, h2]
          have haggF : 2 ≤ teams.length →
              (teams.map fun t => (addTeamStats (agg t) (single t)).finals).sum =
              (teams.map fun t => (agg t).finals).sum + 2 := by
            intro hlen
            have h1 : (teams.map fun t => (addTeamStats (agg t) (single t)).finals).sum =
                (teams.map fun t => (agg t).finals).sum +
                (teams.map fun t => (single t).finals).sum := by
              rw [← sum_map_add]
              rfl
            have h2 : (teams.map fun t => (single t).finals).sum = 2 := by
              have hcongr : (teams.map fun t => (single t).finals) =
                  (teams.map fun t => if t ∈ pair then (1 : ℕ) else 0) := by
                apply List.map_congr_left
                intro t _
                exact (hstats t).2.1
              rw [hcongr, sum_indicator teams pair hnd hpnd hpsub, (hp2 hlen).1]
            rw [h1, h2]
          have haggS : 4 ≤ teams.length →
              (teams.map fun t => (addTeamStats (agg t) (single t)).semis).sum =
              (teams.map fun t => (agg t).semis).sum + 4 := by
            intro hlen
            have h1 : (teams.map fun t => (addTeamStats (agg t) (single t)).semis).sum =
                (teams.map fun t => (agg t).semis).sum +
                (teams.map fun t => (single t).semis).sum := by
              rw [← sum_map_add]
              rfl
            have h2 : (teams.map fun t => (single t).semis).sum = 4 := by
              have hcongr : (teams.map fun t => (single t).semis) =
                  (teams.map fun t => if t ∈ four then (1 : ℕ) else 0) := by
                apply List.map_congr_left
                intro t _
                exact (hstats t).2.2
              rw [hcongr, sum_indicator teams four hnd hfnd hfsub, (hf4 hlen).1]
            rw [h1, h2]
          refine ⟨?_, ?_, ?_, ?_, ?_, ?_⟩
          · rw [ihW, haggW]; omega
          · intro hlen; rw [ihF hlen, haggF hlen]; omega
          · intro hlen; rw [ihS hlen, haggS hlen]; omega
          · intro hlen t
            rw [ihS0 hlen t]
            have : (single t).semis = 0 := by
              rw [(hstats t).2.2, hf0 hlen]
              simp
            show (agg t).semis + (single t).semis = (agg t).semis
            omega
          · intro hlen t
            have hWleF : (single t).wins ≤ (single t).finals := by
              rw [(hstats t).1, (hstats t).2.1]
              by_cases htc : t = c
              · rw [if_pos htc, if_pos (htc ▸ (hp2 hlen).2)]
              · rw [if_neg htc]
                omega
            have := ihWF hlen t
            show _ + (agg t).finals ≤ _ + (agg t).wins
            have ha : (addTeamStats (agg t) (single t)).finals =
                (agg t).finals + (single t).finals := rfl
            have hb : (addTeamStats (agg t) (single t)).wins =
                (agg t).wins + (single t).wins := rfl
            rw [ha, hb] at this
            omega
          · intro hlen t
            have hFleS : (single t).finals ≤ (single t).semis := by
              rw [(hstats t).2.1, (hstats t).2.2]
              by_cases htp : t ∈ pair
              · rw [if_pos htp, if_pos ((hf4 hlen).2 t htp)]
              · rw [if_neg htp]
                omega
            have := ihFS hlen t
            have ha : (addTeamStats (agg t) (single t)).semis =
                (agg t).semis + (single t).semis := rfl
            have hb : (addTeamStats (agg t) (single t)).finals =
                (agg t).finals + (single t).finals := rfl
            rw [ha, hb] at this
            omega

/-- Loop propagation of a failure through the Monte Carlo loop: if the first
`k` iterations succeed, accumulating the partial tallies `aggk` and leaving
the generator in state `sk`, and iteration `k + 1` (of `n > k` requested)
raises `e`, then the whole loop raises `e` - the accumulated tallies are
discarded. -/
theorem runSims_abort {σ : Type} (model : Team → Team → Except SimError MatchProbs)
    (R : RngOps σ) (teams : List Team) (e : SimError) :
    ∀ (k n : ℕ) (s : σ) (agg aggk : Team → TeamStats) (sk : σ),
      runSims model R teams k s agg = .ok (aggk, sk) →
      simulate_single_tournament model R teams sk = .error e →
      k < n →
      runSims model R teams n s agg = .error e
  | 0, n, s, agg, aggk, sk, hk, hfail, hkn => by
      rw [runSims, Except.ok.injEq, Prod.mk.injEq] at hk
      obtain ⟨-, hs⟩ := hk
      obtain ⟨m, rfl⟩ : ∃ m, n = m + 1 := ⟨n - 1, by omega⟩
      rw [runSims]
      rw [hs]
      simp only [hfail, exc_bind_error]
  | k + 1, n, s, agg, aggk, sk, hk, hfail, hkn => by
      rw [runSims] at hk
      cases hone : simulate_single_tournament model R teams s with
      | error e1 =>
          simp only [hone, exc_bind_error] at hk
          exact Except.noConfusion hk
      | ok pr =>
          obtain ⟨single, s1⟩ := pr
          simp only [hone, exc_bind_ok] at hk
          obtain ⟨m, rfl⟩ : ∃ m, n = m + 1 := ⟨n - 1, by omega⟩
          rw [runSims]
          simp only [hone, exc_bind_ok]
          exact runSims_abort model R teams e k m s1 _ aggk sk hk hfail (by omega)

/-! ### The summary construction -/

theorem mkSummary_ok_of_ne (agg : Team → TeamStats) (n : ℤ) (hn : n ≠ 0) :
    ∀ l : List Team, mkSummary agg n l =
      .ok (l.map fun t =>
        (t, ⟨(agg t).wins, (agg t).finals, (agg t).semis,
          (((agg t).wins : ℤ) : ℚ) / (n : ℚ), (((agg t).finals : ℤ) : ℚ) / (n : ℚ),
          (((agg t).semis : ℤ) : ℚ) / (n : ℚ)⟩))
  | [] => rfl
  | t :: rest => by
      rw [mkSummary]
      simp only [pyDiv, if_neg hn, exc_bind_ok, mkSummary_ok_of_ne agg n hn rest,
        List.map_cons]

theorem mkSummary_ok_ne_zero (agg : Team → TeamStats) (n : ℤ) (t : Team) (rest : List Team)
    (sm : List (Team × TeamSummary)) (h : mkSummary agg n (t :: rest) = .ok sm) : n ≠ 0 := by
  intro hn
  subst hn
  rw [mkSummary] at h
  simp only [pyDiv, if_pos rfl, exc_bind_error] at h
  exact Except.noConfusion h

/-! ### Inversion of a successful `simulate_tournament` call -/

theorem simulate_tournament_ok_inv {σ : Type} (R : RngOps σ)
    (loadModel : Except SimError Unit) (model : Team → Team → Except SimError MatchProbs)
    (teams : List Team) (n_runs : ℤ) (res : SimResult)
    (h : simulate_tournament R loadModel model teams n_runs = .ok res) :
    2 ≤ teams.length ∧ is_power_of_two teams.length = true ∧ loadModel = .ok () ∧
    ∃ (agg : Team → TeamStats) (sF : σ),
      runSims model R (dedup teams) n_runs.toNat (R.init 42) zeroStats = .ok (agg, sF) ∧
      mkSummary agg n_runs (dedup teams) = .ok res.summary ∧
      res.teams = dedup teams ∧ res.n_runs = n_runs := by
  rw [simulate_tournament] at h
  by_cases h2 : teams.length < 2
  · rw [if_pos h2] at h
    exact absurd h (by simp)
  rw [if_neg h2] at h
  by_cases hpow : is_power_of_two teams.length = false
  · rw [if_pos hpow] at h
    exact absurd h (by simp)
  rw [if_neg hpow] at h
  refine ⟨by omega, by revert hpow; cases is_power_of_two teams.length <;> simp, ?_⟩
  cases hlm : loadModel with
  | error e =>
      simp only [hlm, exc_bind_error] at h
      exact Except.noConfusion h
  | ok u =>
      obtain rfl : u = () := rfl
      simp only [hlm, exc_bind_ok] at h
      refine ⟨rfl, ?_⟩
      cases hrs : runSims model R (dedup teams) n_runs.toNat (R.init 42) zeroStats with
      | error e =>
          simp only [hrs, exc_bind_error] at h
          exact Except.noConfusion h
      | ok pr =>
          obtain ⟨agg, sF⟩ := pr
          simp only [hrs, exc_bind_ok] at h
          cases hmk : mkSummary agg n_runs (dedup teams) with
          | error e =>
              simp only [hmk, exc_bind_error] at h
              exact Except.noConfusion h
          | ok sm =>
              simp only [hmk, exc_bind_ok, Except.ok.injEq] at h
              refine ⟨agg, sF, rfl, ?_, ?_, ?_⟩
              · rw [← h]
                exact hmk
              · rw [← h]
              · rw [← h]

/-! ### Store lemmas -/

theorem readRef_writeRef_ne (st : ListStore) (r r' : ℕ) (v : List Team) (h : r ≠ r') :
    readRef (writeRef st r' v) r = readRef st r := by
  simp [readRef, writeRef, h]

theorem readRef_allocRef_ne (st : ListStore) (r : ℕ) (v : List Team) (h : r ≠ st.next) :
    readRef (allocRef st v).2 r = readRef st r := by
  simp [readRef, allocRef, h]

/-- A single run allocates one fresh list and writes only into it: every
previously allocated list is untouched. -/
theorem simulate_single_tournament_st_frame {σ : Type}
    (model : Team → Team → Except SimError MatchProbs) (R : RngOps σ)
    (st : ListStore) (teamsRef : ℕ) (s : σ)
    (out : (Team → TeamStats) × ListStore × σ)
    (h : simulate_single_tournament_st model R st teamsRef s = .ok out) :
    out.2.1.next = st.next + 1 ∧ ∀ r < st.next, readRef out.2.1 r = readRef st r := by
  rw [simulate_single_tournament_st] at h
  rcases hshuf : R.shuffle s (readRef (allocRef st (readRef st teamsRef)).2
      (allocRef st (readRef st teamsRef)).1) with ⟨shuffled, s1⟩
  simp only [hshuf] at h
  cases hrr : runRounds model R s1
      (readRef (writeRef (allocRef st (readRef st teamsRef)).2
        (allocRef st (readRef st teamsRef)).1 shuffled)
        (allocRef st (readRef st teamsRef)).1) zeroStats with
  | error e =>
      simp only [hrr, exc_bind_error] at h
      exact Except.noConfusion h
  | ok r3 =>
      obtain ⟨stats, fin, s2⟩ := r3
      simp only [hrr, exc_bind_ok] at h
      cases hcc : crownChampion stats fin with
      | error e =>
          simp only [hcc, exc_bind_error] at h
          exact Except.noConfusion h
      | ok st2 =>
          simp only [hcc, exc_bind_ok, Except.ok.injEq] at h
          rw [← h]
          constructor
          · rfl
          · intro r hr
            show readRef (writeRef (allocRef st (readRef st teamsRef)).2
              (allocRef st (readRef st teamsRef)).1 shuffled) r = readRef st r
            rw [show (allocRef st (readRef st teamsRef)).1 = st.next from rfl]
            rw [readRef_writeRef_ne _ _ _ _ (show r ≠ st.next by omega)]
            exact readRef_allocRef_ne st r _ (by omega)

/-- The Monte Carlo loop over the store only grows the allocation counter
and never writes below the starting one. -/
theorem run_sims_st_frame {σ : Type} (model : Team → Team → Except SimError MatchProbs)
    (R : RngOps σ) (uniqueRef : ℕ) :
    ∀ (n : ℕ) (st : ListStore) (s : σ) (agg : Team → TeamStats)
      (out : (Team → TeamStats) × ListStore × σ),
      run_sims_st model R uniqueRef n st s agg = .ok out →
      st.next ≤ out.2.1.next ∧ ∀ r < st.next, readRef out.2.1 r = readRef st r
  | 0, st, s, agg, out, h => by
      rw [run_sims_st, Except.ok.injEq] at h
      rw [← h]
      exact ⟨le_refl _, fun r _ => rfl⟩
  | n + 1, st, s, agg, out, h => by
      rw [run_sims_st] at h
      cases hone : simulate_single_tournament_st model R st uniqueRef s with
      | error e =>
          simp only [hone, exc_bind_error] at h
          exact Except.noConfusion h
      | ok pr =>
          obtain ⟨single, st1, s1⟩ := pr
          simp only [hone, exc_bind_ok] at h
          obtain ⟨hnext1, hread1⟩ :=
            simulate_single_tournament_st_frame model R st uniqueRef s _ hone
          obtain ⟨hnext2, hread2⟩ := run_sims_st_frame model R uniqueRef n st1 s1 _ out h
          dsimp only at hnext1 hread1
          constructor
          · omega
          · intro r hr
            rw [hread2 r (by omega), hread1 r hr]

/-! ### Cast and zero sums -/

theorem sum_map_cast (l : List Team) (f : Team → ℕ) :
    (l.map fun t => ((f t : ℕ) : ℤ)).sum = (((l.map f).sum : ℕ) : ℤ) := by
  induction l with
  | nil => rfl
  | cons a tl ih => simp [ih]

theorem sum_map_zeroStats_wins (l : List Team) :
    (l.map fun t => (zeroStats t).wins).sum = 0 := by
  induction l with
  | nil => rfl
  | cons a tl ih => simp [zeroStats, ih]

theorem sum_map_zeroStats_finals (l : List Team) :
    (l.map fun t => (zeroStats t).finals).sum = 0 := by
  induction l with
  | nil => rfl
  | cons a tl ih => simp [zeroStats, ih]

theorem sum_map_zeroStats_semis (l : List Team) :
    (l.map fun t => (zeroStats t).semis).sum = 0 := by
  induction l with
  | nil => rfl
  | cons a tl ih => simp [zeroStats, ih]

theorem map_fst_pairing (l : List Team) (f : Team → TeamSummary) :
    (l.map fun t => (t, f t)).map Prod.fst = l := by
  induction l with
  | nil => rfl
  | cons a tl ih => simp [ih]

/-! ### Claim theorems -/

/-- C1, counterexample: the claimed equivalence fails because the
power-of-two validation runs on the raw input length before deduplication.
`simulate_tournament(["A","B","A","C","D","B"], n_runs=1)` raises
`ValueError` (6 is not a power of two), while the deduplicated call
`simulate_tournament(["A","B","C","D"], n_runs=1)` succeeds - so the two
calls do not behave identically. -/
theorem simulate_tournament_dedup_counterexample :
    simulate_tournament constRng (.ok ()) homeModel ["A", "B", "A", "C", "D", "B"] 1 =
      .error (.invalidInput "Number of teams must be a power of two for simple knockout.") ∧
    simulate_tournament constRng (.ok ()) homeModel ["A", "B", "C", "D"] 1 =
      .ok ⟨["A", "B", "C", "D"], 1,
        [("A", ⟨1, 1, 1, 1, 1, 1⟩), ("B", ⟨0, 0, 1, 0, 0, 1⟩),
         ("C", ⟨0, 1, 1, 0, 1, 1⟩), ("D", ⟨0, 0, 1, 0, 0, 1⟩)]⟩ := by
  constructor
  · norm_num +decide [simulate_tournament, is_power_of_two]
  · norm_num +decide [simulate_tournament, is_power_of_two, runSims, mkSummary, pyDiv,
      dedup, dedupGo, zeroStats, constRng, homeModel, simulate_single_tournament, runRounds,
      runRoundsAux, playRound, playMatch, markFinals, markSemis, bumpFinals, bumpSemis,
      crownChampion, addTeamStats, Bind.bind, Except.bind]

/-- C1, amended: when the raw input length passes the validation (which runs
before deduplication), `simulate_tournament` collapses duplicates preserving
first-occurrence order: the persisted team list and the summary keys are
exactly the deduplicated list, which is a duplicate-free sublist of the
input containing the same teams. -/
theorem simulate_tournament_dedup_first_occurrence {σ : Type} (R : RngOps σ)
    (loadModel : Except SimError Unit) (model : Team → Team → Except SimError MatchProbs)
    (teams : List Team) (n_runs : ℤ) (res : SimResult) (t : Team)
    (h : simulate_tournament R loadModel model teams n_runs = .ok res) :
    res.teams = dedup teams ∧
    res.summary.map Prod.fst = dedup teams ∧
    (dedup teams).Sublist teams ∧ (dedup teams).Nodup ∧
    (t ∈ dedup teams ↔ t ∈ teams) := by
  obtain ⟨h2, hpow, hlm, agg, sF, hrs, hmk, hteams, hn⟩ :=
    simulate_tournament_ok_inv R loadModel model teams n_runs res h
  have hne : dedup teams ≠ [] := by
    rw [Ne, dedup_eq_nil_iff]
    intro hnil
    rw [hnil] at h2
    simp at h2
  obtain ⟨t0, rest0, hcons⟩ := List.exists_cons_of_ne_nil hne
  have hnz : n_runs ≠ 0 := by
    rw [hcons] at hmk
    exact mkSummary_ok_ne_zero agg n_runs t0 rest0 _ hmk
  rw [mkSummary_ok_of_ne agg n_runs hnz, Except.ok.injEq] at hmk
  refine ⟨hteams, ?_, dedup_sublist teams, dedup_nodup teams, dedup_mem teams t⟩
  rw [← hmk, map_fst_pairing]

/-- Witness for the amended C1 at `teams = ["A","A"]`: the input passes
validation (length 2), dedups to `["A"]`, and the summary has exactly that
key. -/
theorem simulate_tournament_dedup_first_occurrence_witness :
    (⟨["A"], 1, [("A", ⟨1, 0, 0, 1, 0, 0⟩)]⟩ : SimResult).teams = dedup ["A", "A"] ∧
    (⟨["A"], 1, [("A", ⟨1, 0, 0, 1, 0, 0⟩)]⟩ : SimResult).summary.map Prod.fst =
      dedup ["A", "A"] ∧
    (dedup ["A", "A"]).Sublist ["A", "A"] ∧ (dedup ["A", "A"]).Nodup ∧
    ("A" ∈ dedup ["A", "A"] ↔ "A" ∈ (["A", "A"] : List Team)) :=
  simulate_tournament_dedup_first_occurrence constRng (.ok ()) homeModel ["A", "A"] 1 _ "A"
    (by norm_num +decide [simulate_tournament, is_power_of_two, runSims, mkSummary, pyDiv,
      dedup, dedupGo, zeroStats, constRng, homeModel, simulate_single_tournament, runRounds,
      runRoundsAux, playRound, playMatch, markFinals, markSemis, bumpFinals, bumpSemis,
      crownChampion, addTeamStats, Bind.bind, Except.bind])

/-- C2: on any team list whose length is below 2 or not a power of two,
`simulate_tournament` raises the `ValueError` of the validation block, and
the result is the same whatever the generator, the model loader, the model
collaborator and `n_runs` are - no randomness is consumed and the model is
neither loaded nor called. -/
theorem simulate_tournament_invalid_input {σ1 σ2 : Type} (R1 : RngOps σ1) (R2 : RngOps σ2)
    (lm1 lm2 : Except SimError Unit)
    (m1 m2 : Team → Team → Except SimError MatchProbs)
    (teams : List Team) (n1 n2 : ℤ)
    (h : teams.length < 2 ∨ is_power_of_two teams.length = false) :
    simulate_tournament R1 lm1 m1 teams n1 =
      .error (.invalidInput (if teams.length < 2 then
        "Need at least 2 teams to simulate a tournament."
        else "Number of teams must be a power of two for simple knockout.")) ∧
    simulate_tournament R1 lm1 m1 teams n1 = simulate_tournament R2 lm2 m2 teams n2 := by
  have key : ∀ (σ : Type) (R : RngOps σ) (lm : Except SimError Unit)
      (m : Team → Team → Except SimError MatchProbs) (n : ℤ),
      simulate_tournament R lm m teams n =
        .error (.invalidInput (if teams.length < 2 then
          "Need at least 2 teams to simulate a tournament."
          else "Number of teams must be a power of two for simple knockout.")) := by
    intro σ R lm m n
    by_cases h2 : teams.length < 2
    · rw [simulate_tournament, if_pos h2, if_pos h2]
    · have hpow : is_power_of_two teams.length = false := by tauto
      rw [simulate_tournament, if_neg h2, if_pos hpow, if_neg h2]
  exact ⟨key σ1 R1 lm1 m1 n1, by rw [key σ1 R1 lm1 m1 n1, key σ2 R2 lm2 m2 n2]⟩

/-- Witness for C2 at the 3-team list, pitting a healthy collaborator set
against a broken one: both produce the same `InvalidInput` error. -/
theorem simulate_tournament_invalid_input_witness :
    simulate_tournament constRng (.ok ()) homeModel ["A", "B", "C"] 5 =
      .error (.invalidInput (if (["A", "B", "C"] : List Team).length < 2 then
        "Need at least 2 teams to simulate a tournament."
        else "Number of teams must be a power of two for simple knockout.")) ∧
    simulate_tournament constRng (.ok ()) homeModel ["A", "B", "C"] 5 =
      simulate_tournament constRng (.error .modelError)
        (fun _ _ => .error .modelError) ["A", "B", "C"] 7 :=
  simulate_tournament_invalid_input constRng constRng (.ok ()) (.error .modelError)
    homeModel (fun _ _ => .error .modelError) ["A", "B", "C"] 5 7
    (Or.inr (by decide))

/-- C3, evaluation at the failing input (code bug): with the valid team list
`["A","B"]` and `n_runs = 0`, the Monte Carlo loop body never runs and the
first `count / n_runs` conversion raises `ZeroDivisionError` - the
orchestrator does divide by zero. -/
theorem simulate_tournament_zero_runs_division :
    simulate_tournament constRng (.ok ()) homeModel ["A", "B"] 0 =
      .error .zeroDivisionError := by
  norm_num +decide [simulate_tournament, is_power_of_two, runSims, mkSummary, pyDiv,
    dedup, dedupGo, zeroStats, constRng, Bind.bind, Except.bind]

/-- C4: when the model collaborator answers a fixture with probabilities
summing to ≤ 0, the probability vector is replaced by the fallback
`(1.0, 0.0, 0.0)`, so the fixture resolves to the home team with certainty:
for any generator state (draws being uniform variates in `[0,1)`), the match
returns the home team, consuming exactly one draw and raising nothing. -/
theorem playMatch_degenerate_home_win {σ : Type} (R : RngOps σ)
    (model : Team → Team → Except SimError MatchProbs)
    (home away : Team) (pr : MatchProbs) (s : σ)
    (hdraw : ∀ st : σ, 0 ≤ (R.draw st).1 ∧ (R.draw st).1 < 1)
    (hm : model home away = .ok pr)
    (hsum : pr.home_win + pr.draw + pr.away_win ≤ 0) :
    playMatch model R s home away = .ok (home, (R.draw s).2) := by
  rw [playMatch]
  simp only [hm, exc_bind_ok]
  rcases hds : R.draw s with ⟨u, s1⟩
  have hu : u < (1 : ℚ) := by
    have := (hdraw s).2
    rw [hds] at this
    exact this
  simp only [hds]
  rw [if_pos hsum]
  dsimp only
  rw [if_pos hu]

/-- Witness for C4: the all-zero stub model and the concrete generator give
a deterministic home win. -/
theorem playMatch_degenerate_home_win_witness :
    playMatch (fun _ _ => .ok ⟨0, 0, 0⟩) constRng () "H" "A" = .ok ("H", ()) :=
  playMatch_degenerate_home_win constRng (fun _ _ => .ok ⟨0, 0, 0⟩) "H" "A" ⟨0, 0, 0⟩ ()
    (fun _ => ⟨by norm_num [constRng], by norm_num [constRng]⟩) rfl (by norm_num)

/-- C5: for `n_runs ≥ 1` and any team list on which `simulate_tournament`
succeeds, the champion counts of the summary add up to exactly `n_runs`
(numpy's shuffle permuting its input). -/
theorem simulate_tournament_wins_conservation {σ : Type} (R : RngOps σ)
    (loadModel : Except SimError Unit) (model : Team → Team → Except SimError MatchProbs)
    (teams : List Team) (n_runs : ℤ) (res : SimResult)
    (hsh : ∀ (s : σ) (l : List Team), ((R.shuffle s l).1).Perm l)
    (hn : 1 ≤ n_runs)
    (h : simulate_tournament R loadModel model teams n_runs = .ok res) :
    (res.summary.map fun q => (q.2.wins : ℤ)).sum = n_runs := by
  obtain ⟨h2, hpow, hlm, agg, sF, hrs, hmk, hteams, hnr⟩ :=
    simulate_tournament_ok_inv R loadModel model teams n_runs res h
  have hne : dedup teams ≠ [] := by
    rw [Ne, dedup_eq_nil_iff]
    intro hnil
    rw [hnil] at h2
    simp at h2
  have hnz : n_runs ≠ 0 := by omega
  rw [mkSummary_ok_of_ne agg n_runs hnz, Except.ok.injEq] at hmk
  obtain ⟨hW, -, -, -, -, -⟩ := runSims_spec model R hsh (dedup teams)
    (dedup_nodup teams) hne n_runs.toNat (R.init 42) zeroStats (agg, sF) hrs
  dsimp only at hW
  rw [sum_map_zeroStats_wins] at hW
  rw [← hmk, List.map_map]
  have hco : (res.summary.map fun q => (q.2.wins : ℤ)).sum =
      ((dedup teams).map fun t => ((agg t).wins : ℤ)).sum := by
    rw [← hmk, List.map_map]
    rfl
  rw [← List.map_map, hmk, hco, sum_map_cast, hW]
  omega

/-- Witness for C5: the two-team call with one run has champion counts
summing to 1. -/
theorem simulate_tournament_wins_conservation_witness :
    ((⟨["A", "B"], 1, [("A", ⟨1, 1, 0, 1, 1, 0⟩), ("B", ⟨0, 1, 0, 0, 1, 0⟩)]⟩ :
      SimResult).summary.map fun q => (q.2.wins : ℤ)).sum = 1 :=
  simulate_tournament_wins_conservation constRng (.ok ()) homeModel ["A", "B"] 1 _
    (fun s l => List.Perm.refl l) (by norm_num)
    (by norm_num +decide [simulate_tournament, is_power_of_two, runSims, mkSummary, pyDiv,
      dedup, dedupGo, zeroStats, constRng, homeModel, simulate_single_tournament, runRounds,
      runRoundsAux, playRound, playMatch, markFinals, markSemis, bumpFinals, bumpSemis,
      crownChampion, addTeamStats, Bind.bind, Except.bind])

/-- C6: for brackets (deduplicated team lists) of size ≥ 4 the finalist
counts sum to `2 * n_runs` and the semifinalist counts to `4 * n_runs`; for
a bracket of size 2 every summary entry has a zero semifinalist count. -/
theorem simulate_tournament_final_semi_conservation {σ : Type} (R : RngOps σ)
    (loadModel : Except SimError Unit) (model : Team → Team → Except SimError MatchProbs)
    (teams : List Team) (n_runs : ℤ) (res : SimResult) (p : Team × TeamSummary)
    (hsh : ∀ (s : σ) (l : List Team), ((R.shuffle s l).1).Perm l)
    (hn : 1 ≤ n_runs)
    (h : simulate_tournament R loadModel model teams n_runs = .ok res)
    (hp : p ∈ res.summary) :
    (4 ≤ (dedup teams).length →
      (res.summary.map fun q => (q.2.finals : ℤ)).sum = 2 * n_runs ∧
      (res.summary.map fun q => (q.2.semis : ℤ)).sum = 4 * n_runs) ∧
    ((dedup teams).length = 2 → p.2.semis = 0) := by
  obtain ⟨h2, hpow, hlm, agg, sF, hrs, hmk, hteams, hnr⟩ :=
    simulate_tournament_ok_inv R loadModel model teams n_runs res h
  have hne : dedup teams ≠ [] := by
    rw [Ne, dedup_eq_nil_iff]
    intro hnil
    rw [hnil] at h2
    simp at h2
  have hnz : n_runs ≠ 0 := by omega
  rw [mkSummary_ok_of_ne agg n_runs hnz, Except.ok.injEq] at hmk
  obtain ⟨-, hF, hS, hS0, -, -⟩ := runSims_spec model R hsh (dedup teams)
    (dedup_nodup teams) hne n_runs.toNat (R.init 42) zeroStats (agg, sF) hrs
  dsimp only at hF hS hS0
  constructor
  · intro h4
    constructor
    · have hco : (res.summary.map fun q => (q.2.finals : ℤ)).sum =
          ((dedup teams).map fun t => ((agg t).finals : ℤ)).sum := by
        rw [← hmk, List.map_map]
        rfl
      rw [hco, sum_map_cast, hF (by omega), sum_map_zeroStats_finals]
      omega
    · have hco : (res.summary.map fun q => (q.2.semis : ℤ)).sum =
          ((dedup teams).map fun t => ((agg t).semis : ℤ)).sum := by
        rw [← hmk, List.map_map]
        rfl
      rw [hco, sum_map_cast, hS h4, sum_map_zeroStats_semis]
      omega
  · intro hl2
    rw [← hmk] at hp
    obtain ⟨t, ht, hpt⟩ := List.mem_map.mp hp
    rw [← hpt]
    show (agg t).semis = 0
    rw [hS0 (by omega) t]
    rfl

/-- Witness for C6: the four-team call with one run has finalist counts
summing to 2 and semifinalist counts summing to 4. -/
theorem simulate_tournament_final_semi_conservation_witness :
    (4 ≤ (dedup ["A", "B", "C", "D"]).length →
      ((⟨["A", "B", "C", "D"], 1,
        [("A", ⟨1, 1, 1, 1, 1, 1⟩), ("B", ⟨0, 0, 1, 0, 0, 1⟩),
         ("C", ⟨0, 1, 1, 0, 1, 1⟩), ("D", ⟨0, 0, 1, 0, 0, 1⟩)]⟩ :
        SimResult).summary.map fun q => (q.2.finals : ℤ)).sum = 2 * 1 ∧
      ((⟨["A", "B", "C", "D"], 1,
        [("A", ⟨1, 1, 1, 1, 1, 1⟩), ("B", ⟨0, 0, 1, 0, 0, 1⟩),
         ("C", ⟨0, 1, 1, 0, 1, 1⟩), ("D", ⟨0, 0, 1, 0, 0, 1⟩)]⟩ :
        SimResult).summary.map fun q => (q.2.semis : ℤ)).sum = 4 * 1) ∧
    ((dedup ["A", "B", "C", "D"]).length = 2 →
      (("A", (⟨1, 1, 1, 1, 1, 1⟩ : TeamSummary)) : Team × TeamSummary).2.semis = 0) :=
  simulate_tournament_final_semi_conservation constRng (.ok ()) homeModel
    ["A", "B", "C", "D"] 1 _ ("A", ⟨1, 1, 1, 1, 1, 1⟩)
    (fun s l => List.Perm.refl l) (by norm_num)
    (by norm_num +decide [simulate_tournament, is_power_of_two, runSims, mkSummary, pyDiv,
      dedup, dedupGo, zeroStats, constRng, homeModel, simulate_single_tournament, runRounds,
      runRoundsAux, playRound, playMatch, markFinals, markSemis, bumpFinals, bumpSemis,
      crownChampion, addTeamStats, Bind.bind, Except.bind])
    (List.mem_cons_self _ _)

/-- C7: the simulation is a pure function of its collaborators - the
generator is freshly seeded with the constant 42 inside the call, so two
invocations with the same team list, the same `n_runs` and model
collaborators answering identically per fixture return identical results
(counts and probabilities alike). -/
theorem simulate_tournament_deterministic {σ : Type} (R : RngOps σ)
    (loadModel : Except SimError Unit)
    (m1 m2 : Team → Team → Except SimError MatchProbs)
    (teams : List Team) (n_runs : ℤ)
    (hm : ∀ a b : Team, m1 a b = m2 a b) :
    simulate_tournament R loadModel m1 teams n_runs =
      simulate_tournament R loadModel m2 teams n_runs := by
  have hfun : m1 = m2 := funext fun a => funext fun b => hm a b
  rw [hfun]

/-- Witness for C7: two syntactically different stubs with the same
per-fixture answers give identical results. -/
theorem simulate_tournament_deterministic_witness :
    simulate_tournament constRng (.ok ()) homeModel ["A", "B"] 1 =
      simulate_tournament constRng (.ok ()) (fun _ _ => .ok ⟨1, 0, 0⟩) ["A", "B"] 1 :=
  simulate_tournament_deterministic constRng (.ok ()) homeModel
    (fun _ _ => .ok ⟨1, 0, 0⟩) ["A", "B"] 1 (fun _ _ => rfl)

/-- C8: if the predictive-model collaborator fails during any match of any
run - formalized as: the first `k` Monte Carlo iterations succeed,
accumulating the partial tallies `aggk`, and iteration `k + 1` of the
`n_runs` requested raises `e` (every failure inside a run, in particular a
model failure at any match of any round, surfaces as exactly such a run
failure, since errors propagate through `playMatch`, `playRound` and the
round loop) - then the failure propagates out of `simulate_tournament`
unchanged: the call returns that very error, the partial per-team tallies
are discarded, no summary is built, and (the success payload being the
persisted record) nothing is persisted: the request fails atomically. -/
theorem simulate_tournament_model_failure_aborts {σ : Type} (R : RngOps σ)
    (loadModel : Except SimError Unit) (model : Team → Team → Except SimError MatchProbs)
    (teams : List Team) (n_runs : ℤ) (e : SimError) (k : ℕ)
    (aggk : Team → TeamStats) (sk : σ)
    (hlen : 2 ≤ teams.length) (hpow : is_power_of_two teams.length = true)
    (hload : loadModel = .ok ())
    (hk : runSims model R (dedup teams) k (R.init 42) zeroStats = .ok (aggk, sk))
    (hkn : k < n_runs.toNat)
    (hfail : simulate_single_tournament model R (dedup teams) sk = .error e) :
    simulate_tournament R loadModel model teams n_runs = .error e := by
  rw [simulate_tournament, if_neg (by omega : ¬teams.length < 2),
    if_neg (by simp [hpow])]
  simp only [hload, exc_bind_ok]
  have habort := runSims_abort model R (dedup teams) e k n_runs.toNat (R.init 42)
    zeroStats aggk sk hk hfail hkn
  simp only [habort, exc_bind_error]

/-- Witness for C8, with the failure striking in the middle of the
simulation: over `["A","B"]` with two requested runs, the alternating
generator lets run 1 play A vs B (a success, tallied), while run 2 plays the
reversed fixture B vs A, on which the model fails - the whole call returns
that model error. -/
theorem simulate_tournament_model_failure_aborts_witness :
    simulate_tournament flipRng (.ok ()) flakyModel ["A", "B"] 2 = .error .modelError := by
  cases hk1 : runSims flakyModel flipRng (dedup ["A", "B"]) 1 (flipRng.init 42) zeroStats with
  | error e =>
      norm_num +decide [runSims, dedup, dedupGo, zeroStats, flipRng, flakyModel,
        simulate_single_tournament, runRounds, runRoundsAux, playRound, playMatch,
        markFinals, markSemis, bumpFinals, bumpSemis, crownChampion, addTeamStats,
        Bind.bind, Except.bind] at hk1
      exact Except.noConfusion hk1
  | ok pr =>
      obtain ⟨aggk, sk⟩ := pr
      have h2 := congrArg
        (fun x : Except SimError ((Team → TeamStats) × ℕ) =>
          (x.toOption.getD (zeroStats, 0)).2) hk1
      norm_num +decide [runSims, dedup, dedupGo, zeroStats, flipRng, flakyModel,
        simulate_single_tournament, runRounds, runRoundsAux, playRound, playMatch,
        markFinals, markSemis, bumpFinals, bumpSemis, crownChampion, addTeamStats,
        Bind.bind, Except.bind, Except.toOption, Option.getD] at h2
      have hsk : sk = 1 := by omega
      subst hsk
      exact simulate_tournament_model_failure_aborts flipRng (.ok ()) flakyModel
        ["A", "B"] 2 .modelError 1 aggk 1 (by norm_num) (by decide) rfl hk1 (by norm_num)
        (by norm_num +decide [dedup, dedupGo, zeroStats, flipRng, flakyModel,
          simulate_single_tournament, runRounds, runRoundsAux, playRound, playMatch,
          markFinals, markSemis, bumpFinals, bumpSemis, crownChampion,
          Bind.bind, Except.bind])

/-- C9: `simulate_tournament` never mutates the caller's `teams` list: the
dedup loop builds a fresh `unique_teams` list and every run shuffles a fresh
copy (`teams[:]`) of it, so after a successful call the caller's reference
still holds the original elements in the original order. -/
theorem simulate_tournament_preserves_input {σ : Type} (R : RngOps σ)
    (loadModel : Except SimError Unit) (model : Team → Team → Except SimError MatchProbs)
    (st : ListStore) (teamsRef : ℕ) (n_runs : ℤ) (out : SimResult × ListStore)
    (htr : teamsRef < st.next)
    (h : simulate_tournament_st R loadModel model st teamsRef n_runs = .ok out) :
    readRef out.2 teamsRef = readRef st teamsRef := by
  rw [simulate_tournament_st] at h
  by_cases h2 : (readRef st teamsRef).length < 2
  · rw [if_pos h2] at h
    exact absurd h (by simp)
  rw [if_neg h2] at h
  by_cases hpow : is_power_of_two (readRef st teamsRef).length = false
  · rw [if_pos hpow] at h
    exact absurd h (by simp)
  rw [if_neg hpow] at h
  rcases hal : allocRef st (dedup (readRef st teamsRef)) with ⟨uniqueRef, st1⟩
  simp only [hal] at h
  have hst1 : st1.next = st.next + 1 ∧ ∀ r, r ≠ st.next → readRef st1 r = readRef st r := by
    have hsnd := congrArg Prod.snd hal
    dsimp [allocRef] at hsnd
    constructor
    · rw [← hsnd]
    · intro r hr
      rw [← hsnd]
      simp [readRef, hr]
  cases hlm : loadModel with
  | error e =>
      simp only [hlm, exc_bind_error] at h
      exact Except.noConfusion h
  | ok u =>
      simp only [hlm, exc_bind_ok] at h
      cases hrs : run_sims_st model R uniqueRef n_runs.toNat st1 (R.init 42) zeroStats with
      | error e =>
          simp only [hrs, exc_bind_error] at h
          exact Except.noConfusion h
      | ok pr =>
          obtain ⟨agg, st2, sF⟩ := pr
          simp only [hrs, exc_bind_ok] at h
          cases hmk : mkSummary agg n_runs (readRef st2 uniqueRef) with
          | error e =>
              simp only [hmk, exc_bind_error] at h
              exact Except.noConfusion h
          | ok sm =>
              simp only [hmk, exc_bind_ok, Except.ok.injEq] at h
              obtain ⟨-, hframe⟩ := run_sims_st_frame model R uniqueRef n_runs.toNat
                st1 (R.init 42) zeroStats _ hrs
              dsimp only at hframe
              rw [← h]
              show readRef st2 teamsRef = readRef st teamsRef
              rw [hframe teamsRef (by omega), hst1.2 teamsRef (by omega)]

/-- Witness for C9: a store holding the caller's two-team list at reference
0 still holds it unchanged after the call. -/
theorem simulate_tournament_preserves_input_witness :
    readRef ((simulate_tournament_st constRng (.ok ()) homeModel
        ⟨fun i => if i = 0 then ["A", "B"] else [], 1⟩ 0 1).toOption.getD
        (⟨[], 0, []⟩, ⟨fun i => if i = 0 then ["A", "B"] else [], 1⟩)).2 0 =
      readRef ⟨fun i => if i = 0 then ["A", "B"] else [], 1⟩ 0 := by
  cases hok : simulate_tournament_st constRng (.ok ()) homeModel
      ⟨fun i => if i = 0 then ["A", "B"] else [], 1⟩ 0 1 with
  | error e => rfl
  | ok out =>
      exact simulate_tournament_preserves_input constRng (.ok ()) homeModel
        ⟨fun i => if i = 0 then ["A", "B"] else [], 1⟩ 0 1 out (by norm_num) hok

/-- C10: in every single-run tally and in the aggregated summary, the
champion counter never exceeds the finalist counter (brackets of size ≥ 2),
and the finalist counter never exceeds the semifinalist counter (brackets of
size ≥ 4): the champion reached the final, every finalist the semifinal. -/
theorem simulate_tournament_monotone_counters {σ : Type} (R : RngOps σ)
    (loadModel : Except SimError Unit) (model : Team → Team → Except SimError MatchProbs)
    (teams : List Team) (n_runs : ℤ) (s : σ)
    (out : (Team → TeamStats) × σ) (res : SimResult)
    (t : Team) (p : Team × TeamSummary)
    (hsh : ∀ (s : σ) (l : List Team), ((R.shuffle s l).1).Perm l)
    (hrun : simulate_single_tournament model R (dedup teams) s = .ok out)
    (hagg : simulate_tournament R loadModel model teams n_runs = .ok res)
    (hp : p ∈ res.summary) :
    (2 ≤ (dedup teams).length →
      (out.1 t).wins ≤ (out.1 t).finals ∧ p.2.wins ≤ p.2.finals) ∧
    (4 ≤ (dedup teams).length →
      (out.1 t).finals ≤ (out.1 t).semis ∧ p.2.finals ≤ p.2.semis) := by
  obtain ⟨h2, hpow, hlm, agg, sF, hrs, hmk, hteams, hnr⟩ :=
    simulate_tournament_ok_inv R loadModel model teams n_runs res hagg
  have hne : dedup teams ≠ [] := by
    rw [Ne, dedup_eq_nil_iff]
    intro hnil
    rw [hnil] at h2
    simp at h2
  obtain ⟨c, pair, four, hc, hpnd, hfnd, hpsub, hfsub, hp2, hp0, hf4, hf0, hstats⟩ :=
    simulate_single_tournament_spec model R hsh (dedup teams) s out.1 out.2
      (dedup_nodup teams) hne hrun
  obtain ⟨-, -, -, -, hWF, hFS⟩ := runSims_spec model R hsh (dedup teams)
    (dedup_nodup teams) hne n_runs.toNat (R.init 42) zeroStats (agg, sF) hrs
  obtain ⟨t0, rest0, hcons⟩ := List.exists_cons_of_ne_nil hne
  have hnz : n_runs ≠ 0 := by
    rw [hcons] at hmk
    exact mkSummary_ok_ne_zero agg n_runs t0 rest0 _ hmk
  rw [mkSummary_ok_of_ne agg n_runs hnz, Except.ok.injEq] at hmk
  rw [← hmk] at hp
  obtain ⟨tq, htq, hptq⟩ := List.mem_map.mp hp
  constructor
  · intro hl2
    constructor
    · obtain ⟨hw, hf, -⟩ := hstats t
      rw [hw, hf]
      by_cases htc : t = c
      · rw [if_pos htc, if_pos (htc ▸ (hp2 hl2).2)]
      · rw [if_neg htc]
        omega
    · rw [← hptq]
      show (agg tq).wins ≤ (agg tq).finals
      have := hWF hl2 tq
      dsimp only at this
      simpa [zeroStats] using this
  · intro hl4
    constructor
    · obtain ⟨-, hf, hs⟩ := hstats t
      rw [hf, hs]
      by_cases htp : t ∈ pair
      · rw [if_pos htp, if_pos ((hf4 hl4).2 t htp)]
      · rw [if_neg htp]
        omega
    · rw [← hptq]
      show (agg tq).finals ≤ (agg tq).semis
      have := hFS hl4 tq
      dsimp only at this
      simpa [zeroStats] using this

/-- Witness for C10 at the two-team bracket with one run: champion counts
stay below finalist counts both in the single-run tally and in the summary
entry of team A. -/
theorem simulate_tournament_monotone_counters_witness :
    (2 ≤ (dedup ["A", "B"]).length →
      (((simulate_single_tournament homeModel constRng (dedup ["A", "B"])
          ()).toOption.getD (zeroStats, ())).1 "A").wins ≤
        (((simulate_single_tournament homeModel constRng (dedup ["A", "B"])
          ()).toOption.getD (zeroStats, ())).1 "A").finals ∧
        (("A", (⟨1, 1, 0, 1, 1, 0⟩ : TeamSummary)) : Team × TeamSummary).2.wins ≤
          (("A", (⟨1, 1, 0, 1, 1, 0⟩ : TeamSummary)) : Team × TeamSummary).2.finals) ∧
    (4 ≤ (dedup ["A", "B"]).length →
      (((simulate_single_tournament homeModel constRng (dedup ["A", "B"])
          ()).toOption.getD (zeroStats, ())).1 "A").finals ≤
        (((simulate_single_tournament homeModel constRng (dedup ["A", "B"])
          ()).toOption.getD (zeroStats, ())).1 "A").semis ∧
        (("A", (⟨1, 1, 0, 1, 1, 0⟩ : TeamSummary)) : Team × TeamSummary).2.finals ≤
          (("A", (⟨1, 1, 0, 1, 1, 0⟩ : TeamSummary)) : Team × TeamSummary).2.semis) := by
  cases hok : simulate_single_tournament homeModel constRng (dedup ["A", "B"]) () with
  | error e =>
      exact ⟨fun _ => ⟨le_refl 0, by norm_num⟩, fun h4 => absurd h4 (by decide)⟩
  | ok o =>
      exact simulate_tournament_monotone_counters constRng (.ok ()) homeModel ["A", "B"] 1 ()
        o ⟨["A", "B"], 1, [("A", ⟨1, 1, 0, 1, 1, 0⟩), ("B", ⟨0, 1, 0, 0, 1, 0⟩)]⟩
        "A" ("A", ⟨1, 1, 0, 1, 1, 0⟩)
        (fun s l => List.Perm.refl l) hok
        (by norm_num +decide [simulate_tournament, is_power_of_two, runSims, mkSummary, pyDiv,
          dedup, dedupGo, zeroStats, constRng, homeModel, simulate_single_tournament,
          runRounds, runRoundsAux, playRound, playMatch, markFinals, markSemis, bumpFinals,
          bumpSemis, crownChampion, addTeamStats, Bind.bind, Except.bind])
        (List.mem_cons_self _ _)

end FootballSim
